import Mathlib

/-!
Verification of the bitsharesjs recoverable-signature codec.

Shallow embedding of the `Signature` class (compact 65-byte recoverable
ECDSA signature codec for secp256k1) and proofs of the specified
properties.  Buffers are modelled as `List Nat` of byte values (< 256);
`BigInteger` values as `Nat`.  The external ECDSA engine (`./ecdsa`), the
native `secp256k1` library and SHA-256 are opaque collaborators and are
modelled as explicit function parameters.
-/

/-- Big-endian byte list to natural number: `BigInteger.fromBuffer`. -/
def beToNat (l : List Nat) : Nat :=
  l.foldl (fun a b => a * 256 + b) 0

/-- Structural worker for `beBytes`; the fuel only bounds the recursion
depth and never runs out when it is at least the value encoded. -/
def beBytesAux : Nat → Nat → List Nat
  | 0, _ => []
  | fuel + 1, n => if n = 0 then [] else beBytesAux fuel (n / 256) ++ [n % 256]

/-- Minimal big-endian byte encoding of a natural number, `[]` for `0`:
the bigi method `toByteArrayUnsigned`. -/
def beBytes (n : Nat) : List Nat := beBytesAux n n

/-- The bigi method `toBuffer(size)`: the minimal big-endian encoding, left-padded
with zero bytes up to `size` (no truncation when the value needs more
than `size` bytes). -/
def toBufferPad (n size : Nat) : List Nat :=
  List.replicate (size - (beBytes n).length) 0 ++ beBytes n

/-- Fixed-width `k`-byte big-endian encoding (reference form used to state
properties; coincides with `toBufferPad n k` whenever `n < 256 ^ k`). -/
def natToBEFixed : Nat → Nat → List Nat
  | 0, _ => []
  | k + 1, n => natToBEFixed k (n / 256) ++ [n % 256]

/-- The `Signature` value object: `r`, `s` (unsigned big integers) and the
header byte `i`. -/
structure Signature where
  r : Nat
  s : Nat
  i : Nat
deriving DecidableEq, Repr

/-- Error kinds of the spec: `InputError` for wrong-length buffers and
hashes (the assert with message `Invalid signature length` and the
32-byte hash checks), `FormatError` for a structurally invalid header
byte (the assert with message `Invalid signature parameter`). -/
inductive SigError where
  | InputError : SigError
  | FormatError : SigError
deriving DecidableEq, Repr

/-- The decode-time header check `assert.equal(i - 27, (i - 27) & 7)`:
JavaScript `&` operates on the 32-bit two-complement value, so
`(i - 27) & 7` is `(i - 27) mod 8` (non-negative) over the integers. -/
def headerOk (i : Nat) : Bool :=
  decide (((i : Int) - 27) = ((i : Int) - 27) % 8)

/-- Model of `Signature.fromBuffer`: length check, header check, then `r` from
bytes 1..33 and `s` from bytes 33..65, both big-endian. -/
def Signature.fromBuffer (buf : List Nat) : Except SigError Signature :=
  if buf.length = 65 then
    let i := buf.getD 0 0
    if headerOk i then
      Except.ok ⟨beToNat ((buf.drop 1).take 32), beToNat (buf.drop 33), i⟩
    else Except.error SigError.FormatError
  else Except.error SigError.InputError

/-- Model of `Signature.toBuffer`: header byte, then `r` and `s` via
`toBuffer(32)` (32-byte big-endian under the representability
invariant). -/
def Signature.toBuffer (sig : Signature) : List Nat :=
  sig.i :: (toBufferPad sig.r 32 ++ toBufferPad sig.s 32)

/-- Model of `Signature.isCanonical`: the malleability check on the 32-byte
encodings of `r` and `s`:
`!(r[0] & 0x80) && !(r[0] == 0 && !(r[1] & 0x80))` and likewise for `s`. -/
def Signature.isCanonical (sig : Signature) : Bool :=
  let r := toBufferPad sig.r 32
  let s := toBufferPad sig.s 32
  (r.getD 0 0 &&& 128 == 0) && !((r.getD 0 0 == 0) && (r.getD 1 0 &&& 128 == 0)) &&
  (s.getD 0 0 &&& 128 == 0) && !((s.getD 0 0 == 0) && (s.getD 1 0 &&& 128 == 0))

/-- A raw signature from the external ECDSA engine: the `(r, s)` pair
together with its DER encoding (`ecsignature.toDER()`). -/
structure RawSig where
  r : Nat
  s : Nat
  der : List Nat
deriving DecidableEq, Repr

/-- The DER length-canonicality test of `signBufferSha256`:
`lenR = der[3]`, `lenS = der[5 + lenR]`, accept iff both are 32. -/
def lenCanonical (der : List Nat) : Bool :=
  let lenR := der.getD 3 0
  let lenS := der.getD (5 + lenR) 0
  (lenR == 32) && (lenS == 32)

/-- The nonce-search loop of `signBufferSha256`: try nonces `n, n+1, ...`
until the engine candidate has a length-canonical DER encoding.  The
source loop is unbounded; `fuel` makes the model total, `none` meaning
the bound was hit before acceptance. -/
def nonceLoop (eng : Nat → RawSig) : Nat → Nat → Option Nat
  | 0, _ => none
  | fuel + 1, n => if lenCanonical (eng n).der then some n else nonceLoop eng fuel (n + 1)

/-- Model of `Signature.signBufferSha256`, parametrised by the engine: reject a
non-32-byte input, then search nonces from 0 and build the signature
from the accepted candidate with header `calcPubKeyRecoveryParam + 4 + 27`. -/
def signBufferSha256 (eng : Nat → RawSig) (calcParam : RawSig → Nat)
    (buf : List Nat) (fuel : Nat) : Except SigError (Option Signature) :=
  if buf.length = 32 then
    match nonceLoop eng fuel 0 with
    | some n => Except.ok (some ⟨(eng n).r, (eng n).s, calcParam (eng n) + 4 + 27⟩)
    | none => Except.ok none
  else Except.error SigError.InputError

/-- The recovery-index unpacking of `recoverPublicKey`:
`i -= 27; i = i & 3`, again with JavaScript `&` on the 32-bit value,
i.e. `(i - 27) mod 4` over the integers. -/
def recoveryIndex (i : Nat) : Nat :=
  (((i : Int) - 27) % 4).toNat

/-- The outer retry loop of `Signature.signBuffer`: `cand k` is the
`Signature` produced by the `k`-th call to `signBufferSha256` on the
fixed hash (the engine is re-invoked each iteration); the loop returns
the first canonical candidate.  `fuel` bounds the model of the unbounded
source loop. -/
def canonicalLoop (cand : Nat → Signature) : Nat → Nat → Option Signature
  | 0, _ => none
  | fuel + 1, k =>
    if (cand k).isCanonical then some (cand k) else canonicalLoop cand fuel (k + 1)

/-- Model of `Signature.signBuffer` after hashing: retry `signBufferSha256` until
the result `isCanonical`. -/
def signBuffer (cand : Nat → Signature) (fuel : Nat) : Option Signature :=
  canonicalLoop cand fuel 0

/-- Opaque public key: a curve point `Q` (abstract identifier). -/
structure PublicKey where
  Q : Nat
deriving DecidableEq, Repr

/-- Model of `Signature.verifyHash`: 32-byte check, then the legacy point-arithmetic
`verify(secp256k1, hash, {r, s}, public_key.Q)` from `./ecdsa`,
modelled by the opaque `engVerify`. -/
def verifyHash (engVerify : List Nat → Nat → Nat → Nat → Bool)
    (sig : Signature) (hash : List Nat) (pk : PublicKey) : Except SigError Bool :=
  if hash.length = 32 then Except.ok (engVerify hash sig.r sig.s pk.Q)
  else Except.error SigError.InputError

/-- Model of `Signature.verifyHashV2`: 32-byte check, then the native
`secp256k1.verify(hash, toBuffer().slice(1), public_key.toBuffer())`,
modelled by the opaque `libVerify` and `pkToBuffer`. -/
def verifyHashV2 (libVerify : List Nat → List Nat → List Nat → Bool)
    (pkToBuffer : PublicKey → List Nat)
    (sig : Signature) (hash : List Nat) (pk : PublicKey) : Except SigError Bool :=
  if hash.length = 32 then
    Except.ok (libVerify hash (sig.toBuffer.drop 1) (pkToBuffer pk))
  else Except.error SigError.InputError

/-- Model of `Signature.verifyBuffer`: hash the message, then delegate to
`verifyHashV2` (the point-arithmetic path is commented out in the
source). -/
def verifyBuffer (hash256 : List Nat → List Nat)
    (libVerify : List Nat → List Nat → List Nat → Bool)
    (pkToBuffer : PublicKey → List Nat)
    (sig : Signature) (buf : List Nat) (pk : PublicKey) : Except SigError Bool :=
  verifyHashV2 libVerify pkToBuffer sig (hash256 buf) pk

/-! ### Byte-encoding lemmas -/

theorem beToNat_nil : beToNat [] = 0 := rfl

theorem beToNat_append (l : List Nat) (b : Nat) :
    beToNat (l ++ [b]) = beToNat l * 256 + b := by
  simp [beToNat, List.foldl_append]

theorem natToBEFixed_length (k n : Nat) : (natToBEFixed k n).length = k := by
  induction k generalizing n with
  | zero => rfl
  | succ k ih => simp [natToBEFixed, ih]

theorem natToBEFixed_zero (k : Nat) : natToBEFixed k 0 = List.replicate k 0 := by
  induction k with
  | zero => rfl
  | succ k ih =>
    simp only [natToBEFixed, Nat.zero_div, Nat.zero_mod, ih]
    rw [← List.replicate_succ']

theorem beToNat_natToBEFixed (k : Nat) : ∀ n : Nat, n < 256 ^ k →
    beToNat (natToBEFixed k n) = n := by
  induction k with
  | zero =>
    intro n h
    simp only [pow_zero, Nat.lt_one_iff] at h
    simp [h, natToBEFixed, beToNat_nil]
  | succ k ih =>
    intro n h
    have hd : n / 256 < 256 ^ k := by
      rw [Nat.div_lt_iff_lt_mul (by norm_num)]
      rw [pow_succ] at h
      omega
    simp only [natToBEFixed, beToNat_append, ih _ hd]
    omega

theorem natToBEFixed_beToNat (l : List Nat) (hb : ∀ x ∈ l, x < 256) :
    natToBEFixed l.length (beToNat l) = l := by
  induction l using List.reverseRecOn with
  | nil => rfl
  | append_singleton l b ih =>
    have hb1 : b < 256 := hb b (by simp)
    have h1 : (beToNat l * 256 + b) / 256 = beToNat l := by omega
    have h2 : (beToNat l * 256 + b) % 256 = b := by omega
    simp only [List.length_append, List.length_singleton, beToNat_append,
      natToBEFixed, h1, h2]
    rw [ih (fun x hx => hb x (by simp [hx]))]

theorem beToNat_lt (l : List Nat) (hb : ∀ x ∈ l, x < 256) :
    beToNat l < 256 ^ l.length := by
  induction l using List.reverseRecOn with
  | nil => simp [beToNat_nil]
  | append_singleton l b ih =>
    have hb1 : b < 256 := hb b (by simp)
    have ihl := ih (fun x hx => hb x (by simp [hx]))
    simp only [beToNat_append, List.length_append, List.length_singleton, pow_succ]
    omega

theorem beBytesAux_zero (fuel : Nat) : beBytesAux fuel 0 = [] := by
  cases fuel <;> simp [beBytesAux]

theorem beBytesAux_congr : ∀ f1 f2 n : Nat, n ≤ f1 → n ≤ f2 →
    beBytesAux f1 n = beBytesAux f2 n := by
  intro f1
  induction f1 with
  | zero =>
    intro f2 n h1 _
    have : n = 0 := by omega
    subst this
    rw [beBytesAux_zero, beBytesAux_zero]
  | succ f1 ih =>
    intro f2 n h1 h2
    by_cases hn : n = 0
    · subst hn
      rw [beBytesAux_zero, beBytesAux_zero]
    · obtain ⟨f2p, rfl⟩ : ∃ m, f2 = m + 1 := ⟨f2 - 1, by omega⟩
      have hdiv : n / 256 < n := Nat.div_lt_self (Nat.pos_of_ne_zero hn) (by norm_num)
      simp only [beBytesAux, hn, if_false]
      rw [ih f2p (n / 256) (by omega) (by omega)]

theorem beBytes_zero : beBytes 0 = [] := rfl

theorem beBytes_of_ne_zero (n : Nat) (h : n ≠ 0) :
    beBytes n = beBytes (n / 256) ++ [n % 256] := by
  obtain ⟨m, rfl⟩ : ∃ m, n = m + 1 := ⟨n - 1, by omega⟩
  show beBytesAux (m + 1) (m + 1) = beBytesAux ((m + 1) / 256) ((m + 1) / 256) ++ _
  have hdiv : (m + 1) / 256 < m + 1 := Nat.div_lt_self (by omega) (by norm_num)
  simp only [beBytesAux, h, if_false]
  rw [beBytesAux_congr m ((m + 1) / 256) ((m + 1) / 256) (by omega) (by omega)]

theorem toBufferPad_eq_fixed (k : Nat) : ∀ n : Nat, n < 256 ^ k →
    toBufferPad n k = natToBEFixed k n := by
  induction k with
  | zero =>
    intro n h
    simp only [pow_zero, Nat.lt_one_iff] at h
    simp [h, toBufferPad, beBytes_zero, natToBEFixed]
  | succ k ih =>
    intro n h
    by_cases hn : n = 0
    · subst hn
      simp [toBufferPad, beBytes_zero, natToBEFixed_zero]
    · have hd : n / 256 < 256 ^ k := by
        rw [Nat.div_lt_iff_lt_mul (by norm_num)]
        rw [pow_succ] at h
        omega
      rw [natToBEFixed, ← ih _ hd]
      simp only [toBufferPad, beBytes_of_ne_zero n hn, List.length_append,
        List.length_singleton, Nat.succ_sub_succ]
      rw [List.append_assoc]

theorem toBufferPad_length (k n : Nat) (h : n < 256 ^ k) :
    (toBufferPad n k).length = k := by
  rw [toBufferPad_eq_fixed k n h, natToBEFixed_length]

theorem beToNat_toBufferPad (k n : Nat) (h : n < 256 ^ k) :
    beToNat (toBufferPad n k) = n := by
  rw [toBufferPad_eq_fixed k n h, beToNat_natToBEFixed k n h]

theorem toBufferPad_beToNat (l : List Nat) (hb : ∀ x ∈ l, x < 256) :
    toBufferPad (beToNat l) l.length = l := by
  rw [toBufferPad_eq_fixed _ _ (beToNat_lt l hb), natToBEFixed_beToNat l hb]

theorem pow_256_32 : (256 : Nat) ^ 32 = 2 ^ 256 := by norm_num

theorem land_128_eq_zero_iff (x : Nat) : x &&& 128 = 0 ↔ x.testBit 7 = false := by
  have h : x &&& 128 = (x.testBit 7).toNat * 128 := by
    have := Nat.and_two_pow x 7
    norm_num at this
    exact this
  rw [h]
  cases hx : x.testBit 7 <;> simp

theorem headerOk_iff (i : Nat) : headerOk i = true ↔ 27 ≤ i ∧ i ≤ 34 := by
  simp only [headerOk, decide_eq_true_eq]
  omega

theorem list_split_65 (b : List Nat) (h : b.length = 65) :
    b = b.getD 0 0 :: ((b.drop 1).take 32 ++ b.drop 33) := by
  obtain ⟨hd, tl, rfl⟩ : ∃ hd tl, b = hd :: tl := by
    cases b with
    | nil => simp at h
    | cons hd tl => exact ⟨hd, tl, rfl⟩
  show hd :: tl = hd :: (tl.take 32 ++ tl.drop 32)
  rw [List.take_append_drop]

/-! ### Claim theorems -/

theorem canonicalLoop_some_isCanonical (cand : Nat → Signature) :
    ∀ fuel k sig, canonicalLoop cand fuel k = some sig → sig.isCanonical = true := by
  intro fuel
  induction fuel with
  | zero =>
    intro k sig h
    simp [canonicalLoop] at h
  | succ fuel ih =>
    intro k sig h
    by_cases hc : (cand k).isCanonical = true
    · simp only [canonicalLoop, hc, if_true] at h
      cases h
      exact hc
    · rw [Bool.not_eq_true] at hc
      simp only [canonicalLoop, hc, Bool.false_eq_true, if_false] at h
      exact ih _ _ h

/-- Claim C1: every signature returned by the outer `signBuffer` retry loop
satisfies `isCanonical`: the loop only exits with a canonical candidate. -/
theorem c1_signBuffer_only_canonical (cand : Nat → Signature) (fuel : Nat) (sig : Signature)
    (h : signBuffer cand fuel = some sig) : sig.isCanonical = true :=
  canonicalLoop_some_isCanonical cand fuel 0 sig h

theorem c1_signBuffer_only_canonical_witness :
    signBuffer (fun _ => ⟨2 ^ 248, 2 ^ 248, 31⟩) 1 = some ⟨2 ^ 248, 2 ^ 248, 31⟩ ∧
    (Signature.mk (2 ^ 248) (2 ^ 248) 31).isCanonical = true :=
  ⟨by decide, c1_signBuffer_only_canonical (fun _ => ⟨2 ^ 248, 2 ^ 248, 31⟩) 1
    ⟨2 ^ 248, 2 ^ 248, 31⟩ (by decide)⟩

/-- Claim C9: under the data-model invariant (`r`, `s` each fit in 32
bytes), `toBuffer` always yields a 65-byte buffer and the fixed-width
re-encoding of `r` and `s` is exact (no truncation), and `isCanonical`
always yields a boolean. -/
theorem c9_encode_total (sig : Signature) (hr : sig.r < 2 ^ 256) (hs : sig.s < 2 ^ 256) :
    sig.toBuffer.length = 65 ∧
    (toBufferPad sig.r 32).length = 32 ∧ (toBufferPad sig.s 32).length = 32 ∧
    beToNat (toBufferPad sig.r 32) = sig.r ∧ beToNat (toBufferPad sig.s 32) = sig.s ∧
    (sig.isCanonical = true ∨ sig.isCanonical = false) := by
  have hr' : sig.r < 256 ^ 32 := by rw [pow_256_32]; exact hr
  have hs' : sig.s < 256 ^ 32 := by rw [pow_256_32]; exact hs
  refine ⟨?_, toBufferPad_length 32 sig.r hr', toBufferPad_length 32 sig.s hs',
    beToNat_toBufferPad 32 sig.r hr', beToNat_toBufferPad 32 sig.s hs', ?_⟩
  · simp [Signature.toBuffer, toBufferPad_length 32 sig.r hr', toBufferPad_length 32 sig.s hs']
  · cases sig.isCanonical <;> simp

theorem c9_encode_total_witness :
    (Signature.mk 5 6 30).toBuffer.length = 65 ∧
    (toBufferPad 5 32).length = 32 ∧ (toBufferPad 6 32).length = 32 ∧
    beToNat (toBufferPad 5 32) = 5 ∧ beToNat (toBufferPad 6 32) = 6 ∧
    ((Signature.mk 5 6 30).isCanonical = true ∨ (Signature.mk 5 6 30).isCanonical = false) :=
  c9_encode_total ⟨5, 6, 30⟩ (by norm_num) (by norm_num)

/-- Claim C4: for representable `r` and `s`, `isCanonical` is true exactly
when, on the 32-byte big-endian encodings of `r` and `s`: the top bit of
byte 0 is clear, and it is not the case that byte 0 is zero while the top
bit of byte 1 is clear. -/
theorem c4_isCanonical_iff (sig : Signature) (hr : sig.r < 2 ^ 256) (hs : sig.s < 2 ^ 256) :
    sig.isCanonical = true ↔
      (((natToBEFixed 32 sig.r).getD 0 0).testBit 7 = false ∧
       ¬((natToBEFixed 32 sig.r).getD 0 0 = 0 ∧
         ((natToBEFixed 32 sig.r).getD 1 0).testBit 7 = false) ∧
       ((natToBEFixed 32 sig.s).getD 0 0).testBit 7 = false ∧
       ¬((natToBEFixed 32 sig.s).getD 0 0 = 0 ∧
         ((natToBEFixed 32 sig.s).getD 1 0).testBit 7 = false)) := by
  have hr' : sig.r < 256 ^ 32 := by rw [pow_256_32]; exact hr
  have hs' : sig.s < 256 ^ 32 := by rw [pow_256_32]; exact hs
  rw [Signature.isCanonical]
  simp only [toBufferPad_eq_fixed 32 sig.r hr', toBufferPad_eq_fixed 32 sig.s hs']
  generalize (natToBEFixed 32 sig.r).getD 0 0 = r0
  generalize (natToBEFixed 32 sig.r).getD 1 0 = r1
  generalize (natToBEFixed 32 sig.s).getD 0 0 = s0
  generalize (natToBEFixed 32 sig.s).getD 1 0 = s1
  simp only [Bool.and_eq_true, Bool.not_eq_true', Bool.and_eq_false_iff,
    beq_iff_eq, beq_eq_false_iff_ne, ne_eq, land_128_eq_zero_iff]
  tauto

/-- Claim C2: decoding a well-formed 65-byte buffer (header in `[27, 34]`)
and re-encoding reproduces the buffer exactly, with byte 0 the header,
bytes 1..33 the big-endian `r` and bytes 33..65 the big-endian `s`. -/
theorem c2_decode_encode_roundtrip (b : List Nat) (hlen : b.length = 65)
    (hb : ∀ x ∈ b, x < 256) (h1 : 27 ≤ b.getD 0 0) (h2 : b.getD 0 0 ≤ 34) :
    ∃ sig : Signature, Signature.fromBuffer b = Except.ok sig ∧
      sig.toBuffer = b ∧ sig.i = b.getD 0 0 ∧
      sig.r = beToNat ((b.drop 1).take 32) ∧ sig.s = beToNat (b.drop 33) := by
  have hok : headerOk (b.getD 0 0) = true := (headerOk_iff _).mpr ⟨h1, h2⟩
  refine ⟨⟨beToNat ((b.drop 1).take 32), beToNat (b.drop 33), b.getD 0 0⟩,
    ?_, ?_, rfl, rfl, rfl⟩
  · rw [Signature.fromBuffer]
    simp only [hlen, hok, if_true, eq_self_iff_true]
  · have hlenr : ((b.drop 1).take 32).length = 32 := by
      simp [hlen]
    have hlens : (b.drop 33).length = 32 := by
      simp [hlen]
    have hbr : ∀ x ∈ (b.drop 1).take 32, x < 256 :=
      fun x hx => hb x (List.mem_of_mem_drop (List.mem_of_mem_take hx))
    have hbs : ∀ x ∈ b.drop 33, x < 256 :=
      fun x hx => hb x (List.mem_of_mem_drop hx)
    have er : toBufferPad (beToNat ((b.drop 1).take 32)) 32 = (b.drop 1).take 32 := by
      have := toBufferPad_beToNat _ hbr
      rwa [hlenr] at this
    have es : toBufferPad (beToNat (b.drop 33)) 32 = b.drop 33 := by
      have := toBufferPad_beToNat _ hbs
      rwa [hlens] at this
    rw [Signature.toBuffer]
    simp only [er, es]
    exact (list_split_65 b hlen).symm

theorem c2_decode_encode_roundtrip_witness :
    ∃ sig : Signature,
      Signature.fromBuffer (27 :: List.replicate 64 0) = Except.ok sig ∧
      sig.toBuffer = 27 :: List.replicate 64 0 ∧
      sig.i = (27 :: List.replicate 64 0).getD 0 0 ∧
      sig.r = beToNat (((27 :: List.replicate 64 0).drop 1).take 32) ∧
      sig.s = beToNat ((27 :: List.replicate 64 0).drop 33) :=
  c2_decode_encode_roundtrip (27 :: List.replicate 64 0) (by decide) (by decide)
    (by decide) (by decide)

/-- Claim C3: `fromBuffer` fails with `InputError` exactly on buffers whose
length is not 65, with `FormatError` on 65-byte buffers whose header byte
lies outside `[27, 34]`, and succeeds on every 65-byte buffer with header
in `[27, 34]`. -/
theorem c3_decode_errors (b : List Nat) :
    (b.length ≠ 65 → Signature.fromBuffer b = Except.error SigError.InputError) ∧
    (b.length = 65 → ¬(27 ≤ b.getD 0 0 ∧ b.getD 0 0 ≤ 34) →
      Signature.fromBuffer b = Except.error SigError.FormatError) ∧
    (b.length = 65 → 27 ≤ b.getD 0 0 → b.getD 0 0 ≤ 34 →
      ∃ sig : Signature, Signature.fromBuffer b = Except.ok sig) := by
  refine ⟨?_, ?_, ?_⟩
  · intro h
    rw [Signature.fromBuffer]
    simp only [h, if_false]
  · intro hlen hbad
    have hok : headerOk (b.getD 0 0) = false :=
      Bool.eq_false_iff.mpr (fun hq => hbad ((headerOk_iff _).mp hq))
    rw [Signature.fromBuffer]
    simp only [hlen, hok, if_true, eq_self_iff_true, Bool.false_eq_true, if_false]
  · intro hlen h1 h2
    refine ⟨⟨beToNat ((b.drop 1).take 32), beToNat (b.drop 33), b.getD 0 0⟩, ?_⟩
    rw [Signature.fromBuffer]
    simp only [hlen, (headerOk_iff _).mpr ⟨h1, h2⟩, if_true, eq_self_iff_true]

theorem c3_decode_errors_witness :
    Signature.fromBuffer (List.replicate 64 0) = Except.error SigError.InputError ∧
    Signature.fromBuffer (26 :: List.replicate 64 0) = Except.error SigError.FormatError ∧
    (∃ sig : Signature,
      Signature.fromBuffer (34 :: List.replicate 64 0) = Except.ok sig) :=
  ⟨(c3_decode_errors (List.replicate 64 0)).1 (by decide),
   (c3_decode_errors (26 :: List.replicate 64 0)).2.1 (by decide) (by decide),
   (c3_decode_errors (34 :: List.replicate 64 0)).2.2 (by decide) (by decide) (by decide)⟩

/-- Claim C10: the round trip in the other direction: for a `Signature`
with header in `[27, 34]` and representable `r`, `s`, decoding the
encoding succeeds and returns the same signature. -/
theorem c10_encode_decode_roundtrip (sig : Signature) (h1 : 27 ≤ sig.i) (h2 : sig.i ≤ 34)
    (hr : sig.r < 2 ^ 256) (hs : sig.s < 2 ^ 256) :
    Signature.fromBuffer sig.toBuffer = Except.ok sig := by
  have hr' : sig.r < 256 ^ 32 := by rw [pow_256_32]; exact hr
  have hs' : sig.s < 256 ^ 32 := by rw [pow_256_32]; exact hs
  have lenr := toBufferPad_length 32 sig.r hr'
  have lens := toBufferPad_length 32 sig.s hs'
  have hlen : sig.toBuffer.length = 65 := by
    simp [Signature.toBuffer, lenr, lens]
  have hget : sig.toBuffer.getD 0 0 = sig.i := rfl
  have hok : headerOk sig.i = true := (headerOk_iff _).mpr ⟨h1, h2⟩
  have hdrop1 : sig.toBuffer.drop 1 = toBufferPad sig.r 32 ++ toBufferPad sig.s 32 := rfl
  have htake : (sig.toBuffer.drop 1).take 32 = toBufferPad sig.r 32 := by
    rw [hdrop1, List.take_left' lenr]
  have hdrop33 : sig.toBuffer.drop 33 = toBufferPad sig.s 32 := by
    show (toBufferPad sig.r 32 ++ toBufferPad sig.s 32).drop 32 = toBufferPad sig.s 32
    rw [List.drop_left' lenr]
  rw [Signature.fromBuffer]
  simp only [hlen, if_true, hget, hok, htake, hdrop33,
    beToNat_toBufferPad 32 sig.r hr', beToNat_toBufferPad 32 sig.s hs']

theorem c10_encode_decode_roundtrip_witness :
    Signature.fromBuffer (Signature.toBuffer ⟨3, 4, 28⟩) = Except.ok ⟨3, 4, 28⟩ :=
  c10_encode_decode_roundtrip ⟨3, 4, 28⟩ (by decide) (by decide)
    (by norm_num) (by norm_num)

theorem nonceLoop_finds (eng : Nat → RawSig) :
    ∀ fuel start : Nat, (∃ j, j < fuel ∧ lenCanonical (eng (start + j)).der = true) →
    ∃ n, start ≤ n ∧ nonceLoop eng fuel start = some n ∧
      lenCanonical (eng n).der = true ∧
      ∀ k, start ≤ k → k < n → lenCanonical (eng k).der = false := by
  intro fuel
  induction fuel with
  | zero =>
    rintro start ⟨j, hj, _⟩
    omega
  | succ fuel ih =>
    intro start hex
    by_cases hc : lenCanonical (eng start).der = true
    · refine ⟨start, Nat.le_refl _, ?_, hc, fun k hk1 hk2 => absurd hk1 (by omega)⟩
      simp only [nonceLoop, hc, if_true]
    · have hcf : lenCanonical (eng start).der = false := Bool.eq_false_iff.mpr hc
      obtain ⟨j, hj, hacc⟩ := hex
      have hj0 : j ≠ 0 := by
        rintro rfl
        rw [Nat.add_zero] at hacc
        exact hc hacc
      obtain ⟨n, hn1, hn2, hn3, hn4⟩ := ih (start + 1)
        ⟨j - 1, by omega, by
          have he : start + 1 + (j - 1) = start + j := by omega
          rw [he]
          exact hacc⟩
      refine ⟨n, by omega, ?_, hn3, ?_⟩
      · simp only [nonceLoop, hcf, Bool.false_eq_true, if_false]
        exact hn2
      · intro k hk1 hk2
        by_cases hks : k = start
        · subst hks
          exact hcf
        · exact hn4 k (by omega) hk2

/-- Claim C6: if some nonce yields a length-canonical DER candidate
(`der[3] = 32` and `der[5 + lenR] = 32`), the `signBufferSha256` nonce
loop terminates and returns the candidate of the smallest such nonce. -/
theorem c6_signBufferSha256_terminates (eng : Nat → RawSig) (calcParam : RawSig → Nat)
    (buf : List Nat) (m : Nat) (hbuf : buf.length = 32)
    (hm : lenCanonical (eng m).der = true) :
    ∃ n, n ≤ m ∧ lenCanonical (eng n).der = true ∧
      (∀ k, k < n → lenCanonical (eng k).der = false) ∧
      signBufferSha256 eng calcParam buf (m + 1) =
        Except.ok (some ⟨(eng n).r, (eng n).s, calcParam (eng n) + 4 + 27⟩) := by
  obtain ⟨n, _, hn2, hn3, hn4⟩ := nonceLoop_finds eng (m + 1) 0
    ⟨m, by omega, by simpa using hm⟩
  have hnm : n ≤ m := by
    by_contra hgt
    rw [hn4 m (by omega) (by omega)] at hm
    exact Bool.false_ne_true hm
  refine ⟨n, hnm, hn3, fun k hk => hn4 k (by omega) hk, ?_⟩
  rw [signBufferSha256]
  simp only [hbuf, if_true, eq_self_iff_true, hn2]

/-- A DER buffer whose two integer-length fields both read 32, used to
instantiate the abstract engine in witnesses. -/
def derCanon : List Nat := ((List.replicate 40 0).set 3 32).set 37 32

theorem c6_signBufferSha256_terminates_witness :
    ∃ n, n ≤ 0 ∧ lenCanonical ((fun _ => RawSig.mk 1 2 derCanon) n).der = true ∧
      (∀ k, k < n → lenCanonical ((fun _ => RawSig.mk 1 2 derCanon) k).der = false) ∧
      signBufferSha256 (fun _ => RawSig.mk 1 2 derCanon) (fun _ => 0)
        (List.replicate 32 0) (0 + 1) =
        Except.ok (some ⟨((fun _ => RawSig.mk 1 2 derCanon) n).r,
          ((fun _ => RawSig.mk 1 2 derCanon) n).s,
          (fun _ => (0 : Nat)) ((fun _ => RawSig.mk 1 2 derCanon) n) + 4 + 27⟩) :=
  c6_signBufferSha256_terminates (fun _ => RawSig.mk 1 2 derCanon) (fun _ => 0)
    (List.replicate 32 0) 0 (by decide) (by decide)

/-- Claim C5: when the recovery parameter is in `{0, 1, 2, 3}`, the header
stored by `signBufferSha256` is `param + 4 + 27` (hence in `[31, 34]`) and
the unpacking `(headerByte - 27) & 3` in `recoverPublicKey` restores the
original parameter. -/
theorem c5_header_pack_unpack (eng : Nat → RawSig) (calcParam : RawSig → Nat)
    (buf : List Nat) (fuel n : Nat) (sig : Signature)
    (hsig : signBufferSha256 eng calcParam buf fuel = Except.ok (some sig))
    (hloop : nonceLoop eng fuel 0 = some n)
    (hp : calcParam (eng n) ≤ 3) :
    sig.i = calcParam (eng n) + 4 + 27 ∧ 31 ≤ sig.i ∧ sig.i ≤ 34 ∧
    recoveryIndex sig.i = calcParam (eng n) := by
  by_cases hbuf : buf.length = 32
  · rw [signBufferSha256] at hsig
    simp only [hbuf, if_true, eq_self_iff_true, hloop, Except.ok.injEq,
      Option.some.injEq] at hsig
    subst hsig
    refine ⟨rfl, ?_, ?_, ?_⟩
    · show 31 ≤ calcParam (eng n) + 4 + 27
      omega
    · show calcParam (eng n) + 4 + 27 ≤ 34
      omega
    · show recoveryIndex (calcParam (eng n) + 4 + 27) = calcParam (eng n)
      rw [recoveryIndex]
      have he : ((calcParam (eng n) + 4 + 27 : Nat) : Int) - 27 =
          (calcParam (eng n) : Int) + 4 := by
        push_cast
        ring
      rw [he]
      omega
  · rw [signBufferSha256] at hsig
    simp [hbuf] at hsig

theorem c5_header_pack_unpack_witness :
    (Signature.mk 7 8 33).i = 2 + 4 + 27 ∧ 31 ≤ (Signature.mk 7 8 33).i ∧
    (Signature.mk 7 8 33).i ≤ 34 ∧ recoveryIndex (Signature.mk 7 8 33).i = 2 :=
  c5_header_pack_unpack (fun _ => RawSig.mk 7 8 derCanon) (fun _ => 2)
    (List.replicate 32 0) 1 0 ⟨7, 8, 33⟩ rfl rfl (by decide)

/-- Claim C8: the hash-taking operations reject a wrong-sized hash with
`InputError`: `signBufferSha256` for non-32-byte input, and `verifyHash`
and `verifyHashV2` for a hash whose length is not 32. -/
theorem c8_hash_length_checks (eng : Nat → RawSig) (calcParam : RawSig → Nat)
    (engVerify : List Nat → Nat → Nat → Nat → Bool)
    (libVerify : List Nat → List Nat → List Nat → Bool)
    (pkToBuffer : PublicKey → List Nat)
    (sig : Signature) (pk : PublicKey) (buf hash : List Nat) (fuel : Nat) :
    (buf.length ≠ 32 →
      signBufferSha256 eng calcParam buf fuel = Except.error SigError.InputError) ∧
    (hash.length ≠ 32 →
      verifyHash engVerify sig hash pk = Except.error SigError.InputError) ∧
    (hash.length ≠ 32 →
      verifyHashV2 libVerify pkToBuffer sig hash pk = Except.error SigError.InputError) := by
  refine ⟨?_, ?_, ?_⟩
  · intro h
    rw [signBufferSha256]
    simp only [h, if_false]
  · intro h
    rw [verifyHash]
    simp only [h, if_false]
  · intro h
    rw [verifyHashV2]
    simp only [h, if_false]

theorem c8_hash_length_checks_witness :
    signBufferSha256 (fun _ : Nat => RawSig.mk 1 1 ([] : List Nat))
      (fun _ : RawSig => (0 : Nat)) (List.replicate 31 0) 1 =
      Except.error SigError.InputError ∧
    verifyHash (fun _ _ _ _ => true) ⟨1, 1, 27⟩ (List.replicate 31 0) ⟨0⟩ =
      Except.error SigError.InputError ∧
    verifyHashV2 (fun _ _ _ => true) (fun _ : PublicKey => ([] : List Nat)) ⟨1, 1, 27⟩
      (List.replicate 31 0) ⟨0⟩ = Except.error SigError.InputError :=
  have h := c8_hash_length_checks (fun _ : Nat => RawSig.mk 1 1 ([] : List Nat))
    (fun _ : RawSig => (0 : Nat))
    (fun _ _ _ _ => true) (fun _ _ _ => true) (fun _ : PublicKey => ([] : List Nat))
    ⟨1, 1, 27⟩ ⟨0⟩ (List.replicate 31 0) (List.replicate 31 0) 1
  ⟨h.1 (by decide), h.2.1 (by decide), h.2.2 (by decide)⟩

/-- Claim C7: the legacy point-arithmetic verifier `verifyHash` and the
delegated verifier `verifyHashV2` (the one `verifyBuffer` uses) agree,
under the contract of the spec that the byte-level verify of the native
library and the point-level verify decide the same predicate on the encoded
`(r, s)` and public key. -/
theorem c7_verify_paths_agree (engVerify : List Nat → Nat → Nat → Nat → Bool)
    (libVerify : List Nat → List Nat → List Nat → Bool)
    (pkToBuffer : PublicKey → List Nat) (hash256 : List Nat → List Nat)
    (sig : Signature) (hash buf : List Nat) (pk : PublicKey)
    (hr : sig.r < 2 ^ 256) (hs : sig.s < 2 ^ 256)
    (hagree : ∀ (h : List Nat) (r s : Nat) (q : PublicKey), r < 2 ^ 256 → s < 2 ^ 256 →
      libVerify h (natToBEFixed 32 r ++ natToBEFixed 32 s) (pkToBuffer q) =
        engVerify h r s q.Q) :
    verifyHash engVerify sig hash pk = verifyHashV2 libVerify pkToBuffer sig hash pk ∧
    verifyBuffer hash256 libVerify pkToBuffer sig buf pk =
      verifyHashV2 libVerify pkToBuffer sig (hash256 buf) pk := by
  have hr' : sig.r < 256 ^ 32 := by rw [pow_256_32]; exact hr
  have hs' : sig.s < 256 ^ 32 := by rw [pow_256_32]; exact hs
  constructor
  · rw [verifyHash, verifyHashV2]
    by_cases hl : hash.length = 32
    · simp only [hl, if_true, eq_self_iff_true, Except.ok.injEq]
      have hdrop : sig.toBuffer.drop 1 = natToBEFixed 32 sig.r ++ natToBEFixed 32 sig.s := by
        show toBufferPad sig.r 32 ++ toBufferPad sig.s 32 = _
        rw [toBufferPad_eq_fixed 32 sig.r hr', toBufferPad_eq_fixed 32 sig.s hs']
      rw [hdrop, hagree hash sig.r sig.s pk hr hs]
    · simp only [hl, if_false]
  · rfl

theorem c7_verify_paths_agree_witness :
    verifyHash (fun _ _ _ _ => true) ⟨9, 10, 27⟩ (List.replicate 32 0) ⟨0⟩ =
      verifyHashV2 (fun _ _ _ => true) (fun _ => []) ⟨9, 10, 27⟩ (List.replicate 32 0) ⟨0⟩ ∧
    verifyBuffer (fun _ => List.replicate 32 0) (fun _ _ _ => true) (fun _ => [])
        ⟨9, 10, 27⟩ [] ⟨0⟩ =
      verifyHashV2 (fun _ _ _ => true) (fun _ => []) ⟨9, 10, 27⟩
        (List.replicate 32 0) ⟨0⟩ :=
  c7_verify_paths_agree (fun _ _ _ _ => true) (fun _ _ _ => true) (fun _ => [])
    (fun _ => List.replicate 32 0) ⟨9, 10, 27⟩ (List.replicate 32 0) [] ⟨0⟩
    (by norm_num) (by norm_num) (fun _ _ _ _ _ _ => rfl)

theorem c4_isCanonical_iff_witness :
    ((Signature.mk 1 1 27).isCanonical = true ↔
      (((natToBEFixed 32 1).getD 0 0).testBit 7 = false ∧
       ¬((natToBEFixed 32 1).getD 0 0 = 0 ∧
         ((natToBEFixed 32 1).getD 1 0).testBit 7 = false) ∧
       ((natToBEFixed 32 1).getD 0 0).testBit 7 = false ∧
       ¬((natToBEFixed 32 1).getD 0 0 = 0 ∧
         ((natToBEFixed 32 1).getD 1 0).testBit 7 = false))) :=
  c4_isCanonical_iff ⟨1, 1, 27⟩ (by norm_num) (by norm_num)
